import Mathlib

/-!
# Verification of kubetui's related-resource resolution engine and event aggregator

Shallow embedding of the core logic of `jcfrank/kubetui`:

* `src/event/kubernetes/network/description/related_resources.rs` — the
  label-selector filter over fetched pod lists (`Filter::filter` for
  `BTreeMap<String, String>`, `compare_btree_map`), the projection to a
  display value (`ToValue::to_value`), and the resolver
  (`RelatedPod::related_resources`).
* `src/event/kubernetes/network/description/related_resources/service.rs` —
  the name-set filter over fetched service lists (`Filter::filter_by_item`).
* `event/src/kubernetes/event.rs` — the event aggregator
  (`get_event_table`) and the polling loop (`event_loop`).

Rust `BTreeMap<String, String>` label mappings are embedded as association
lists (`List (String × String)`); `BTreeMap::get` is `List.lookup`.
Fallible fetches are embedded as `Except String`; the async client is a
parameter supplying the fetch outcome.
-/

namespace Kubetui

/-- A label mapping (`BTreeMap<String, String>` in the source): key → value. -/
abbrev Labels := List (String × String)

/-- `ObjectMeta` as the pod code uses it: optional `name`, optional `labels`. -/
structure PodMeta where
  name : Option String
  labels : Option Labels
  deriving DecidableEq

/-- A pod item: only `metadata` is touched by the filter/projection code. -/
structure Pod where
  metadata : PodMeta
  deriving DecidableEq

/-- `FetchedPodList = List<Pod>`: the `items` field is all the code reads;
the other `List` fields are defaulted whenever the code builds one. -/
structure FetchedPodList where
  items : List Pod
  deriving DecidableEq

/-- `compare_btree_map(lhs, rhs)`: every `(key, value)` of `lhs` is present in
`rhs` with an equal value (related_resources.rs lines 193–202). -/
def compare_btree_map (lhs rhs : Labels) : Bool :=
  lhs.all fun p => rhs.lookup p.1 == some p.2

/-- The per-item predicate of `Filter::filter`:
`item.metadata.labels.as_ref().map_or(false, |rhs| compare_btree_map(self, rhs))`. -/
def podMatches (selector : Labels) (item : Pod) : Bool :=
  match item.metadata.labels with
  | some rhs => compare_btree_map selector rhs
  | none => false

/-- `Filter::filter` for `BTreeMap<String, String>` (related_resources.rs
lines 168–191): keep the items whose labels contain the selector; `none`
when no item is kept. -/
def filter (selector : Labels) (target : FetchedPodList) : Option FetchedPodList :=
  let ret : List Pod := target.items.filter fun item => podMatches selector item
  if !ret.isEmpty then some { items := ret } else none

/-- `ToValue::to_value` for `FetchedPodList` (related_resources.rs lines
277–292): the names of the items that carry one, in list order; `none` when
that sequence is empty. -/
def to_value (self : FetchedPodList) : Option (List String) :=
  let ret : List String := self.items.filterMap fun pod => pod.metadata.name
  if !ret.isEmpty then some ret else none

/-- `RelatedPod::related_resources` (related_resources.rs lines 34–43): fetch,
propagate the error with `?`, filter by the selector, project with
`to_value`; `Ok(None)` when the filter returns `None`. The client is embedded
as the fetch outcome. -/
def related_resources (fetched : Except String FetchedPodList) (selector : Labels) :
    Except String (Option (List String)) :=
  match fetched with
  | .error e => .error e
  | .ok list =>
    match filter selector list with
    | some f => .ok (to_value f)
    | none => .ok none

/-- Spec-side predicate, from the spec's words: an item matches iff every
`(key, value)` pair of the selector is present with equal value in the item's
label mapping; an absent label mapping never matches. -/
def specSelectorMatch (S : Labels) (item : Pod) : Prop :=
  ∃ ls, item.metadata.labels = some ls ∧ ∀ p ∈ S, ls.lookup p.1 = some p.2

/-- Spec-side projection: the matched items' names in the matched list's
order (items without a name contribute nothing). -/
def podNames (L : FetchedPodList) : List String :=
  L.items.filterMap fun pod => pod.metadata.name

lemma compare_btree_map_iff (S ls : Labels) :
    compare_btree_map S ls = true ↔ ∀ p ∈ S, ls.lookup p.1 = some p.2 := by
  simp [compare_btree_map, List.all_eq_true]

lemma podMatches_iff (S : Labels) (i : Pod) :
    podMatches S i = true ↔ specSelectorMatch S i := by
  unfold podMatches specSelectorMatch
  cases h : i.metadata.labels with
  | none => simp
  | some ls => simp [compare_btree_map_iff]

lemma podMatches_none (S : Labels) (i : Pod) (h : i.metadata.labels = none) :
    podMatches S i = false := by
  unfold podMatches
  rw [h]

lemma filter_eq_none_iff (S : Labels) (L : FetchedPodList) :
    filter S L = none ↔ ∀ i ∈ L.items, ¬ specSelectorMatch S i := by
  unfold filter
  by_cases h : L.items.filter (fun item => podMatches S item) = []
  · rw [List.filter_eq_nil_iff] at h
    have hcond : (L.items.filter (fun item => podMatches S item)).isEmpty = true := by
      rw [List.isEmpty_iff, List.filter_eq_nil_iff]
      exact h
    simp only [hcond, Bool.not_true, Bool.false_eq_true, if_neg, true_iff,
      not_false_eq_true]
    intro i hi
    rw [← podMatches_iff S i]
    simpa using h i hi
  · have hcond : (L.items.filter (fun item => podMatches S item)).isEmpty = false := by
      simpa [List.isEmpty_iff] using h
    simp only [hcond, Bool.not_false, if_pos]
    constructor
    · intro hsome
      exact (Option.some_ne_none _ hsome).elim
    · intro hall
      rcases List.exists_mem_of_ne_nil _ h with ⟨i, hi⟩
      rw [List.mem_filter] at hi
      exact absurd ((podMatches_iff S i).mp hi.2) (hall i hi.1)

lemma filter_isSome_iff (S : Labels) (L : FetchedPodList) :
    (filter S L).isSome ↔ ∃ i ∈ L.items, specSelectorMatch S i := by
  rw [← Option.ne_none_iff_isSome, Ne, filter_eq_none_iff]
  push_neg
  simp

lemma filter_eq_some_items (S : Labels) (L L' : FetchedPodList)
    (h : filter S L = some L') :
    L'.items = L.items.filter fun item => podMatches S item := by
  unfold filter at h
  by_cases hf : (L.items.filter (fun item => podMatches S item)).isEmpty
  · simp [hf] at h
  · simp only [hf, Bool.not_false, if_pos, Option.some.injEq] at h
    rw [← h]

/-- Service metadata. The name filter calls kube's `ResourceExt::name()`,
which returns the (asserted-present) `metadata.name`, so the embedded
`name` is a plain `String`. -/
structure ServiceMeta where
  name : String
  deriving DecidableEq

/-- A service item: only `metadata.name` is touched by the name filter. -/
structure Service where
  metadata : ServiceMeta
  deriving DecidableEq

/-- `List<Service>`: as with pods, only `items` is read. -/
structure ServiceList where
  items : List Service
  deriving DecidableEq

/-- `Filter::filter_by_item` for `List<Service>` (service.rs lines 48–73):
keep the services whose name appears in `arg`; `none` when no item is kept. -/
def filter_by_item (self : ServiceList) (arg : List String) : Option ServiceList :=
  let ret : List Service :=
    self.items.filter fun svc => arg.any fun name => svc.metadata.name == name
  if !ret.isEmpty then some { items := ret } else none

lemma svc_any_eq_mem (arg : List String) (svc : Service) :
    (arg.any fun name => svc.metadata.name == name)
      = decide (svc.metadata.name ∈ arg) := by
  induction arg with
  | nil => simp
  | cons a l ih =>
    simp only [List.any_cons, ih, List.mem_cons]
    by_cases h : svc.metadata.name = a <;> simp [h]

lemma filter_by_item_eq_none_iff (L : ServiceList) (N : List String) :
    filter_by_item L N = none ↔ ∀ s ∈ L.items, s.metadata.name ∉ N := by
  unfold filter_by_item
  by_cases h : (L.items.filter fun svc => N.any fun name => svc.metadata.name == name) = []
  · have hcond :
        (L.items.filter fun svc => N.any fun name => svc.metadata.name == name).isEmpty
          = true := by
      rwa [List.isEmpty_iff]
    rw [List.filter_eq_nil_iff] at h
    simp only [hcond, Bool.not_true, Bool.false_eq_true, if_neg, true_iff,
      not_false_eq_true]
    intro s hs
    have := h s hs
    rw [svc_any_eq_mem] at this
    simpa using this
  · have hcond :
        (L.items.filter fun svc => N.any fun name => svc.metadata.name == name).isEmpty
          = false := by
      simpa [List.isEmpty_iff] using h
    simp only [hcond, Bool.not_false, if_pos]
    constructor
    · intro hsome
      exact (Option.some_ne_none _ hsome).elim
    · intro hall
      rcases List.exists_mem_of_ne_nil _ h with ⟨s, hs⟩
      rw [List.mem_filter, svc_any_eq_mem] at hs
      exact absurd (of_decide_eq_true hs.2) (hall s hs.1)

lemma filter_by_item_eq_some_items (L : ServiceList) (N : List String) (L' : ServiceList)
    (h : filter_by_item L N = some L') :
    L'.items = L.items.filter fun s => decide (s.metadata.name ∈ N) := by
  unfold filter_by_item at h
  by_cases hf : (L.items.filter fun svc => N.any fun name => svc.metadata.name == name).isEmpty
  · simp [hf] at h
  · simp only [hf, Bool.not_false, if_pos, Option.some.injEq] at h
    rw [← h]
    simp only [List.filter_congr fun s _ => svc_any_eq_mem N s]

/-! ## Event aggregator (event/src/kubernetes/event.rs) -/

/-- `TARGET` (event.rs line 26): the expected table header. -/
def TARGET : List String := ["Last Seen", "Object", "Reason", "Message"]

/-- A row of a Kubernetes table response: its display cells. -/
structure TableRow where
  cells : List String
  deriving DecidableEq

/-- A tabular API response: a header of column names and the rows. -/
structure Table where
  header : List String
  rows : List TableRow
  deriving DecidableEq

/-- Modelled from the spec: `get_resourse_per_namespace` lives in the module
`v1_table`, which is not under src/; per the spec it requests the tabular
"events" resource for one namespace, expects a header matching `TARGET`
exactly (order-sensitive), extracts the target columns positionally
(`create_cells`), inserts the namespace cell at index 1
(`insert_namespace_index(1, _)`), and on a fetch error or header mismatch
contributes zero rows rather than aborting the aggregation. -/
def get_resourse_per_namespace (request : String → Except String Table)
    (ns : String) : List (List String) :=
  match request ns with
  | .error _ => []
  | .ok t =>
    if t.header = TARGET then
      t.rows.map fun row =>
        let cells := (List.range TARGET.length).map fun i => row.cells.getD i ""
        cells.take 1 ++ [ns] ++ cells.drop 1
    else []

/-- Stable insertion step for `sort_by_key`. -/
def insertSorted {α : Type} (key : α → Nat) (x : α) : List α → List α
  | [] => [x]
  | y :: ys => if key x ≤ key y then x :: y :: ys else y :: insertSorted key x ys

/-- `Vec::sort_by_key` (a stable sort), embedded as stable insertion sort. -/
def sort_by_key {α : Type} (key : α → Nat) : List α → List α
  | [] => []
  | x :: xs => insertSorted key x (sort_by_key key xs)

/-- `format!("{:<4}", item)`: left-aligned, padded to a minimum width of 4. -/
def leftAligned4 (s : String) : String :=
  s ++ String.mk (List.replicate (4 - s.length) ' ')

/-- One row of `get_event_table`'s formatting fold (event.rs lines 51–64):
each cell but the last is `format!("{:<4}  ", item)`; the last is
`format!("\n\x1b[90m> {}\x1b[0m\n ", item)`. -/
def format_row (v : List String) : String :=
  v.enum.foldl
    (fun s p =>
      if p.1 = v.length - 1 then s ++ ("\n\x1b[90m> " ++ p.2 ++ "\x1b[0m\n ")
      else s ++ (leftAligned4 p.2 ++ "  "))
    ""

/-- `get_event_table` (event.rs lines 28–65): fan out over the namespaces,
flatten the per-namespace row sets, sort by the parsed timestamp of each
row's first cell (`row[0].to_time()`, an opaque orderable key per the spec),
and format every row. `join_all` preserves the order of the futures list, so
the flattened data is in namespace-list order. -/
def get_event_table (request : String → Except String Table)
    (to_time : String → Nat) (ns : List String) : List String :=
  let data : List (List String) := (ns.map (get_resourse_per_namespace request)).flatten
  let sorted := sort_by_key (fun row => to_time (row.headD "")) data
  sorted.map format_row

/-- The flattened pre-sort data of `get_event_table`. -/
def rawRows (request : String → Except String Table) (ns : List String) :
    List (List String) :=
  (ns.map (get_resourse_per_namespace request)).flatten

/-- A namespace's contribution fails when its fetch errors or the returned
header does not match `TARGET`. -/
def fetchFails (request : String → Except String Table) (n : String) : Bool :=
  match request n with
  | .error _ => true
  | .ok t => decide (t.header ≠ TARGET)

/-- The payload constructors of `Event::Kube(Kube::Event(_))`. -/
inductive Kube where
  | event : List String → Kube
  deriving DecidableEq

/-- The outbound channel's message type, as the loop uses it. -/
inductive Event where
  | kube : Kube → Event
  deriving DecidableEq

/-- One tick of `event_loop` (event.rs lines 13–23): read the namespace set,
build the event table, send exactly one `Event::Kube(Kube::Event(_))` on the
channel. The returned list is the sequence of messages the tick publishes. -/
def event_loop_tick (request : String → Except String Table)
    (to_time : String → Nat) (namespaces : List String) : List Event :=
  [Event.kube (Kube.event (get_event_table request to_time namespaces))]

lemma insertSorted_perm {α : Type} (key : α → Nat) (x : α) (l : List α) :
    (insertSorted key x l).Perm (x :: l) := by
  induction l with
  | nil => exact List.Perm.refl _
  | cons y ys ih =>
    unfold insertSorted
    by_cases h : key x ≤ key y
    · rw [if_pos h]
    · rw [if_neg h]
      exact ((ih.cons y).trans (List.Perm.swap x y ys))

lemma sort_by_key_perm {α : Type} (key : α → Nat) (l : List α) :
    (sort_by_key key l).Perm l := by
  induction l with
  | nil => exact List.Perm.refl _
  | cons x xs ih =>
    exact (insertSorted_perm key x (sort_by_key key xs)).trans (ih.cons x)

lemma insertSorted_pairwise {α : Type} (key : α → Nat) (x : α) (l : List α)
    (h : l.Pairwise fun a b => key a ≤ key b) :
    (insertSorted key x l).Pairwise fun a b => key a ≤ key b := by
  induction l with
  | nil => simp [insertSorted]
  | cons y ys ih =>
    rw [List.pairwise_cons] at h
    unfold insertSorted
    by_cases hle : key x ≤ key y
    · rw [if_pos hle, List.pairwise_cons]
      refine ⟨?_, List.pairwise_cons.mpr h⟩
      intro b hb
      rcases List.mem_cons.mp hb with rfl | hb
      · exact hle
      · exact le_trans hle (h.1 b hb)
    · rw [if_neg hle, List.pairwise_cons]
      refine ⟨?_, ih h.2⟩
      intro b hb
      have hb' := (insertSorted_perm key x ys).mem_iff.mp hb
      rcases List.mem_cons.mp hb' with rfl | hb'
      · exact le_of_lt (lt_of_not_le hle)
      · exact h.1 b hb'

lemma sort_by_key_pairwise {α : Type} (key : α → Nat) (l : List α) :
    (sort_by_key key l).Pairwise fun a b => key a ≤ key b := by
  induction l with
  | nil => simp [sort_by_key]
  | cons x xs ih => exact insertSorted_pairwise key x (sort_by_key key xs) ih

lemma get_resourse_of_fails (request : String → Except String Table) (n : String)
    (h : fetchFails request n = true) :
    get_resourse_per_namespace request n = [] := by
  unfold fetchFails at h
  unfold get_resourse_per_namespace
  cases hr : request n with
  | error e => rfl
  | ok t =>
    rw [hr] at h
    simp only [] at h ⊢
    rw [if_neg (of_decide_eq_true h)]

lemma rawRows_filter_failing (request : String → Except String Table) (ns : List String) :
    rawRows request ns
      = rawRows request (ns.filter fun n => !fetchFails request n) := by
  induction ns with
  | nil => rfl
  | cons n t ih =>
    unfold rawRows at ih ⊢
    rw [List.filter_cons]
    by_cases h : fetchFails request n = true
    · have hdrop : (!fetchFails request n) = false := by rw [h]; rfl
      rw [hdrop]
      simp only [Bool.false_eq_true, if_neg]
      rw [List.map_cons, List.flatten_cons, get_resourse_of_fails request n h,
        List.nil_append]
      exact ih
    · have hkeep : (!fetchFails request n) = true := by
        cases hb : fetchFails request n
        · rfl
        · exact absurd hb h
      rw [hkeep]
      simp only [if_pos]
      rw [List.map_cons, List.flatten_cons, List.map_cons, List.flatten_cons, ih]

lemma rawRows_all_failing (request : String → Except String Table) (ns : List String)
    (h : ∀ n ∈ ns, fetchFails request n = true) :
    rawRows request ns = [] := by
  unfold rawRows
  rw [List.flatten_eq_nil_iff]
  intro x hx
  rcases List.mem_map.mp hx with ⟨n, hn, rfl⟩
  exact get_resourse_of_fails request n (h n hn)

/-- Spec-side concatenation of the formatted pieces, in order. -/
def strConcat (l : List String) : String := l.foldl (· ++ ·) ""

lemma strConcat_foldl (l : List String) (a : String) :
    l.foldl (· ++ ·) a = a ++ strConcat l := by
  induction l generalizing a with
  | nil => simp [strConcat, String.append_empty]
  | cons x xs ih =>
    rw [List.foldl_cons, ih (a ++ x)]
    unfold strConcat
    rw [List.foldl_cons]
    rw [ih ("" ++ x)]
    rw [show ("" ++ x) = x from rfl, String.append_assoc]
    rfl

lemma strConcat_cons (x : String) (l : List String) :
    strConcat (x :: l) = x ++ strConcat l := by
  unfold strConcat
  rw [List.foldl_cons, strConcat_foldl]
  rfl

lemma strConcat_append (l₁ l₂ : List String) :
    strConcat (l₁ ++ l₂) = strConcat l₁ ++ strConcat l₂ := by
  unfold strConcat
  rw [List.foldl_append, strConcat_foldl]
  rfl

lemma foldl_append_pieces {β : Type} (g : β → String) (l : List β) (a : String) :
    l.foldl (fun s p => s ++ g p) a = a ++ strConcat (l.map g) := by
  induction l generalizing a with
  | nil => simp [strConcat, String.append_empty]
  | cons x xs ih =>
    rw [List.foldl_cons, ih (a ++ g x), List.map_cons, strConcat_cons,
      String.append_assoc]

lemma map_snd_enumFrom {β : Type} (F : String → β) (l : List String) (k : Nat) :
    (List.enumFrom k l).map (fun p : Nat × String => F p.2) = l.map F := by
  induction l generalizing k with
  | nil => rfl
  | cons x xs ih => simp [List.enumFrom, ih]

lemma format_row_structure (v : List String) (h : v ≠ []) :
    format_row v
      = strConcat (v.dropLast.map fun c => leftAligned4 c ++ "  ")
          ++ ("\n\x1b[90m> " ++ v.getLast h ++ "\x1b[0m\n ") := by
  obtain ⟨l, x, rfl⟩ : ∃ l x, v = l ++ [x] :=
    ⟨v.dropLast, v.getLast h, (List.dropLast_concat_getLast h).symm⟩
  unfold format_row
  rw [List.foldl_ext _ (fun s (p : Nat × String) =>
        s ++ (if p.1 = (l ++ [x]).length - 1
              then "\n\x1b[90m> " ++ p.2 ++ "\x1b[0m\n "
              else leftAligned4 p.2 ++ "  ")) ""
      (by
        intro a p _
        have hl : (l ++ [x]).length - 1 = l.length := by simp
        rw [hl]
        by_cases hp : p.1 = l.length <;> simp [hp])]
  rw [foldl_append_pieces]
  rw [show (l ++ [x]).enum = List.enumFrom 0 (l ++ [x]) from rfl]
  rw [List.enumFrom_append]
  have hlen : (l ++ [x]).length - 1 = l.length := by simp
  have htail : List.enumFrom (0 + l.length) [x] = [(l.length, x)] := by
    rw [Nat.zero_add]
    rfl
  rw [htail, List.map_append]
  have hmap₁ :
      (List.enumFrom 0 l).map (fun p : Nat × String =>
          if p.1 = (l ++ [x]).length - 1
          then "\n\x1b[90m> " ++ p.2 ++ "\x1b[0m\n "
          else leftAligned4 p.2 ++ "  ")
        = (List.enumFrom 0 l).map fun p : Nat × String => leftAligned4 p.2 ++ "  " := by
    refine List.map_eq_map_iff.mpr fun p hp => ?_
    have hlt : p.1 < 0 + l.length := List.fst_lt_add_of_mem_enumFrom hp
    rw [hlen, if_neg]
    omega
  have hmap₂ :
      ((List.enumFrom 0 l).map fun p : Nat × String => leftAligned4 p.2 ++ "  ")
        = l.map fun c => leftAligned4 c ++ "  " :=
    map_snd_enumFrom (fun c => leftAligned4 c ++ "  ") l 0
  have hmap₃ :
      [((l.length : Nat), x)].map (fun p : Nat × String =>
          if p.1 = (l ++ [x]).length - 1
          then "\n\x1b[90m> " ++ p.2 ++ "\x1b[0m\n "
          else leftAligned4 p.2 ++ "  ")
        = ["\n\x1b[90m> " ++ x ++ "\x1b[0m\n "] := by
    rw [List.map_cons, List.map_nil, hlen, if_pos rfl]
  rw [hmap₁, hmap₂, hmap₃, strConcat_append, List.dropLast_concat,
    List.getLast_concat]
  rw [show strConcat ["\n\x1b[90m> " ++ x ++ "\x1b[0m\n "]
        = "" ++ ("\n\x1b[90m> " ++ x ++ "\x1b[0m\n ") from rfl]
  rfl

end Kubetui

namespace Kubetui

/-- C1: `filter_by_selector` returns `Some` exactly when some item's label
mapping contains every pair of the selector; the result is exactly the
matching items in original order; an item without a label mapping never
matches. -/
theorem filter_by_selector_correct (S : Labels) (L : FetchedPodList) :
    ((filter S L).isSome ↔ ∃ i ∈ L.items, specSelectorMatch S i)
    ∧ (∀ L', filter S L = some L' →
        L'.items = L.items.filter fun item => podMatches S item)
    ∧ (∀ i : Pod, podMatches S i = true ↔ specSelectorMatch S i)
    ∧ (∀ i : Pod, i.metadata.labels = none → podMatches S i = false) := by
  refine ⟨filter_isSome_iff S L, fun L' h => filter_eq_some_items S L L' h,
    fun i => podMatches_iff S i, fun i h => podMatches_none S i h⟩

/-- C5: `filter_by_names` keeps exactly the items whose name is in the name
set, in original order, and returns `none` exactly when no item's name is. -/
theorem filter_by_names_correct (N : List String) (L : ServiceList) :
    ((filter_by_item L N).isSome ↔ ∃ s ∈ L.items, s.metadata.name ∈ N)
    ∧ (∀ L', filter_by_item L N = some L' →
        L'.items = L.items.filter fun s => decide (s.metadata.name ∈ N))
    ∧ (filter_by_item L N = none ↔ ∀ s ∈ L.items, s.metadata.name ∉ N) := by
  refine ⟨?_, fun L' h => filter_by_item_eq_some_items L N L' h,
    filter_by_item_eq_none_iff L N⟩
  rw [← Option.ne_none_iff_isSome, Ne, filter_by_item_eq_none_iff]
  push_neg
  simp

/-- C2, counterexample: a list holding one labeled pod is filtered by the
empty selector to `Some`, not `None` — `compare_btree_map` is vacuously true
on an empty selector, so every item with a label mapping matches. -/
theorem empty_selector_matches_labeled_pod :
    filter []
        { items := [{ metadata := { name := some "pod-1",
                                    labels := some [("app", "pod-1")] } }] }
      ≠ none := by
  decide

/-- C2 as amended: an empty name set still never matches
(`filter_by_names(L, ∅) = None` for every `L`), but an empty selector
mapping matches exactly the items that carry a label mapping: the filter
returns `None` only when no item has labels, and otherwise `Some` of the
items whose labels are present, in order. -/
theorem empty_matchspec_amended (L : FetchedPodList) (SL : ServiceList) :
    filter_by_item SL [] = none
    ∧ (filter [] L = none ↔ ∀ i ∈ L.items, i.metadata.labels = none)
    ∧ (∀ L', filter [] L = some L' →
        L'.items = L.items.filter fun i => i.metadata.labels.isSome) := by
  have hmatch : ∀ i : Pod, podMatches [] i = i.metadata.labels.isSome := by
    intro i
    unfold podMatches compare_btree_map
    cases i.metadata.labels <;> simp
  refine ⟨?_, ?_, ?_⟩
  · rw [filter_by_item_eq_none_iff]
    simp
  · rw [filter_eq_none_iff]
    constructor
    · intro h i hi
      have := h i hi
      rw [← podMatches_iff] at this
      rw [hmatch i] at this
      simpa using this
    · intro h i hi
      rw [← podMatches_iff, hmatch i, h i hi]
      simp
  · intro L' h
    rw [filter_eq_some_items [] L L' h]
    exact List.filter_congr fun i _ => hmatch i

/-- C3: with a successful fetch, the resolver yields `Ok(None)` exactly when
the filter stage matches nothing or the matched items carry no names; when
the matched list's name sequence is non-empty the resolver yields `Ok(Some)`
of those names in the matched list's order. -/
theorem related_resources_ok_characterization
    (fetched : Except String FetchedPodList) (S : Labels) :
    (related_resources fetched S = .ok none ↔
      ∃ L, fetched = .ok L ∧
        (filter S L = none ∨ ∃ F, filter S L = some F ∧ podNames F = []))
    ∧ (∀ L F, fetched = .ok L → filter S L = some F → podNames F ≠ [] →
        related_resources fetched S = .ok (some (podNames F))) := by
  have hto : ∀ F : FetchedPodList,
      to_value F = if podNames F = [] then none else some (podNames F) := by
    intro F
    unfold to_value podNames
    by_cases h : (F.items.filterMap fun pod => pod.metadata.name) = [] <;>
      simp [h, List.isEmpty_iff]
  have hok_none : ∀ L, filter S L = none →
      related_resources (.ok L) S = .ok none := by
    intro L h
    simp [related_resources, h]
  have hok_some : ∀ L F, filter S L = some F →
      related_resources (.ok L) S = .ok (to_value F) := by
    intro L F h
    simp [related_resources, h]
  constructor
  · cases fetched with
    | error e =>
      simp only [related_resources, false_iff]
      constructor
      · intro h
        cases h
      · rintro ⟨L, hL, -⟩
        cases hL
    | ok L =>
      cases hf : filter S L with
      | none =>
        rw [hok_none L hf]
        exact ⟨fun _ => ⟨L, rfl, Or.inl hf⟩, fun _ => rfl⟩
      | some F =>
        rw [hok_some L F hf, hto F]
        by_cases hn : podNames F = []
        · rw [if_pos hn]
          exact ⟨fun _ => ⟨L, rfl, Or.inr ⟨F, hf, hn⟩⟩, fun _ => rfl⟩
        · rw [if_neg hn]
          constructor
          · intro hcontra
            rw [Except.ok.injEq] at hcontra
            exact (Option.some_ne_none _ hcontra).elim
          · rintro ⟨L', hL', hcase⟩
            rw [Except.ok.injEq] at hL'
            cases hL'
            rcases hcase with hnone | ⟨F', hF', hn'⟩
            · rw [hnone] at hf
              cases hf
            · rw [hF'] at hf
              rw [Option.some.injEq] at hf
              cases hf
              exact absurd hn' hn
  · rintro L F rfl hf hn
    rw [hok_some L F hf, hto F, if_neg hn]

/-- C4: a fetch error is returned as the resolution's failure, and an errored
resolution is never `Ok` of anything — in particular never `Ok(None)`, so a
failed fetch is distinguishable from a successful empty resolution. -/
theorem related_resources_error_propagates (e : String) (S : Labels) :
    related_resources (.error e) S = .error e
    ∧ ∀ v : Option (List String), related_resources (.error e) S ≠ .ok v := by
  refine ⟨rfl, fun v h => ?_⟩
  simp [related_resources] at h

/-- C9: filtering is idempotent — re-filtering a filter result by the same
selector (pods) or the same name set (services) returns the identical result. -/
theorem filter_idempotent (S : Labels) (N : List String)
    (L L' : FetchedPodList) (SL SL' : ServiceList)
    (hp : filter S L = some L') (hs : filter_by_item SL N = some SL') :
    filter S L' = some L' ∧ filter_by_item SL' N = some SL' := by
  constructor
  · have hitems := filter_eq_some_items S L L' hp
    have hfix : L'.items.filter (fun item => podMatches S item) = L'.items := by
      rw [hitems, List.filter_filter]
      simp
    have hne : L'.items ≠ [] := by
      intro hnil
      unfold filter at hp
      rw [hitems] at hnil
      simp [hnil] at hp
    unfold filter
    rw [hfix]
    have hcond : L'.items.isEmpty = false := by simpa [List.isEmpty_iff] using hne
    simp only [hcond, Bool.not_false, if_pos]
  · have hitems := filter_by_item_eq_some_items SL N SL' hs
    have hfix : SL'.items.filter (fun svc => N.any fun name => svc.metadata.name == name)
        = SL'.items := by
      conv_lhs => rw [List.filter_congr fun s _ => svc_any_eq_mem N s]
      rw [hitems, List.filter_filter]
      simp
    have hne : SL'.items ≠ [] := by
      intro hnil
      unfold filter_by_item at hs
      have : (SL.items.filter fun svc => N.any fun name => svc.metadata.name == name)
          = [] := by
        have := hitems
        rw [hnil] at this
        rw [List.filter_congr fun s _ => svc_any_eq_mem N s]
        exact this.symm
      simp [this] at hs
    unfold filter_by_item
    rw [hfix]
    have hcond : SL'.items.isEmpty = false := by simpa [List.isEmpty_iff] using hne
    simp only [hcond, Bool.not_false, if_pos]

/-- C9 witness: the idempotence theorem applied to a concrete pod list, a
concrete selector, a concrete service list and a concrete name set. -/
theorem filter_idempotent_witness :
    filter [("app", "x")]
        { items := [{ metadata := { name := some "pod-1",
                                    labels := some [("app", "x")] } }] }
      = some { items := [{ metadata := { name := some "pod-1",
                                         labels := some [("app", "x")] } }] }
    ∧ filter_by_item { items := [{ metadata := { name := "service-1" } }] }
        ["service-1"]
      = some { items := [{ metadata := { name := "service-1" } }] } :=
  filter_idempotent [("app", "x")] ["service-1"]
    { items := [{ metadata := { name := some "pod-1",
                                labels := some [("app", "x")] } }] }
    { items := [{ metadata := { name := some "pod-1",
                                labels := some [("app", "x")] } }] }
    { items := [{ metadata := { name := "service-1" } }] }
    { items := [{ metadata := { name := "service-1" } }] }
    (by decide) (by decide)

/-- C6: a namespace whose fetch errors or whose header mismatches `TARGET`
contributes zero rows, and the aggregate output equals the output over the
successfully fetched namespaces alone — a per-namespace failure never aborts
the aggregation, and the result type carries no error at all. -/
theorem event_aggregator_partial_failure (request : String → Except String Table)
    (to_time : String → Nat) (ns : List String) :
    (∀ n, fetchFails request n = true → get_resourse_per_namespace request n = [])
    ∧ get_event_table request to_time ns
        = get_event_table request to_time (ns.filter fun n => !fetchFails request n) := by
  refine ⟨fun n h => get_resourse_of_fails request n h, ?_⟩
  unfold get_event_table
  have hraw := rawRows_filter_failing request ns
  unfold rawRows at hraw
  rw [hraw]

/-- C7: the aggregate output is the formatting map applied to the flattened
rows sorted ascending by the parsed timestamp of each row's first cell; the
sorted list is a permutation of the flattened data (flattened in the fixed
namespace-list order `join_all` returns, independent of fetch completion),
and formatting is a plain `List.map`, which never reorders. -/
theorem event_rows_sorted_before_format (request : String → Except String Table)
    (to_time : String → Nat) (ns : List String) :
    get_event_table request to_time ns
      = (sort_by_key (fun row => to_time (row.headD "")) (rawRows request ns)).map
          format_row
    ∧ (sort_by_key (fun row => to_time (row.headD "")) (rawRows request ns)).Pairwise
        (fun a b => to_time (a.headD "") ≤ to_time (b.headD ""))
    ∧ (sort_by_key (fun row => to_time (row.headD "")) (rawRows request ns)).Perm
        (rawRows request ns) :=
  ⟨rfl, sort_by_key_pairwise _ _, sort_by_key_perm _ _⟩

/-- C8: the formatted output of a non-empty event row is every cell but the
last rendered left-aligned with minimum width 4 plus two trailing spaces,
concatenated in cell order, then the last cell on a new line prefixed by
`"> "` inside the dim escape (`ESC[90m … ESC[0m`) and followed by a blank
continuation line. -/
theorem format_row_correct (v : List String) (h : v ≠ []) :
    format_row v
      = strConcat (v.dropLast.map fun c => leftAligned4 c ++ "  ")
          ++ ("\n\x1b[90m> " ++ v.getLast h ++ "\x1b[0m\n ")
    ∧ ∀ c : String, (leftAligned4 c).length = max c.length 4 := by
  refine ⟨format_row_structure v h, fun c => ?_⟩
  unfold leftAligned4
  rw [String.length_append]
  have : (String.mk (List.replicate (4 - c.length) ' ')).length
      = 4 - c.length := by
    rw [show (String.mk (List.replicate (4 - c.length) ' ')).length
          = (List.replicate (4 - c.length) ' ').length from rfl]
    rw [List.length_replicate]
  rw [this]
  omega

/-- C8 witness: the formatting theorem applied to a concrete five-cell row. -/
theorem format_row_correct_witness :
    format_row ["0s", "default", "pod/a", "Started", "ok"]
      = strConcat (["0s", "default", "pod/a", "Started"].map
          fun c => leftAligned4 c ++ "  ")
          ++ ("\n\x1b[90m> " ++ "ok" ++ "\x1b[0m\n ")
    ∧ ∀ c : String, (leftAligned4 c).length = max c.length 4 :=
  format_row_correct ["0s", "default", "pod/a", "Started", "ok"] (by decide)

/-- C10: one tick of the polling loop publishes exactly one event payload —
the formatted row sequence — even when the namespace set is empty or every
namespace's fetch fails, in which cases the payload carries an empty row
sequence rather than the tick being skipped. -/
theorem polling_tick_single_payload (request : String → Except String Table)
    (to_time : String → Nat) (ns : List String) :
    event_loop_tick request to_time ns
        = [Event.kube (Kube.event (get_event_table request to_time ns))]
    ∧ (event_loop_tick request to_time ns).length = 1
    ∧ event_loop_tick request to_time [] = [Event.kube (Kube.event [])]
    ∧ ((∀ n ∈ ns, fetchFails request n = true) →
        event_loop_tick request to_time ns = [Event.kube (Kube.event [])]) := by
  refine ⟨rfl, rfl, rfl, fun h => ?_⟩
  have hraw := rawRows_all_failing request ns h
  unfold rawRows at hraw
  unfold event_loop_tick get_event_table
  rw [hraw]
  rfl

end Kubetui
